import Mathlib

/-!
# me-time: the kagome tokenizer binding (`packages/metime/main.go`)

A shallow embedding of the Go binding that exposes the kagome tokenizer to a
JavaScript host, and the properties of the records it builds.

Conventions of the embedding

* A Go `string` that reaches this program is valid UTF-8 (the text comes from
  `js.Value.String()`, surfaces are pieces of that text cut at rune
  boundaries), so it is a Lean `String`: a sequence of Unicode scalar values.
  Go's builtin `len` counts the bytes of the UTF-8 encoding; the number of code
  points is `String.length`.
* Go's `int` is 64 bits wide on `GOARCH=wasm`; the one addition of the program
  is wrapped explicitly.
* `interface{}` results keep Go's distinction between the untyped `nil`
  and a (possibly nil) slice value.
* The kagome library and `syscall/js` are not part of the repository: the
  tokenizer handle, the methods of a token and `js.Value.String` are
  parameters of the embedding.
* `tokenize` is given twice: as a function of the loaded tokenizer, and
  statement by statement on a memory (`Machine.tokenize`) in which the
  variable `t` is an address and the tokenizer object has a state that the
  library may change; the second is shown to compute the first.
-/

namespace MeTime

/-! ## Go values -/

/-- An `interface{}` stored in a record: this program stores strings and ints only. -/
inductive Value where
  | str (s : String)
  | int (n : Int)
deriving DecidableEq, Repr

/-- The `map[string]interface{}` a token is turned into, as the key/value pairs of
the map literal (keys are pairwise distinct). -/
abbrev Record := List (String × Value)

/-- Map lookup `m[key]`. -/
def Record.get (m : Record) (key : String) : Option Value :=
  (m.find? (fun kv => kv.1 == key)).map Prod.snd

/-- The keys of the map. -/
def Record.keys (m : Record) : List String := m.map Prod.fst

/-- A Go slice: either the nil slice or a slice holding elements. -/
inductive Slice (α : Type) where
  | nil : Slice α
  | ofList (xs : List α) : Slice α
deriving DecidableEq, Repr

/-- Go's builtin `append(s, x)`: appending to the nil slice allocates. -/
def Slice.append {α : Type} : Slice α → α → Slice α
  | Slice.nil, x => Slice.ofList [x]
  | Slice.ofList xs, x => Slice.ofList (xs ++ [x])

/-- The elements of a slice, in order (`range s`). -/
def Slice.toList {α : Type} : Slice α → List α
  | Slice.nil => []
  | Slice.ofList xs => xs

/-- Go's builtin `len(s)` on a slice. -/
def Slice.len {α : Type} (s : Slice α) : Nat := s.toList.length

/-- The `interface{}` returned by `tokenize`: the untyped `nil`, or a
`[]interface{}` value whose elements are records. An interface that holds a nil
slice is not the nil interface (the host receives an empty array for it and
`null` for the untyped `nil`). -/
inductive Any where
  | nil : Any
  | slice (s : Slice Record) : Any
deriving DecidableEq, Repr

/-- The bytes of a Go string: its UTF-8 encoding. -/
def bytes (s : String) : List UInt8 := s.data.flatMap String.utf8EncodeChar

/-- Go's builtin `len(s)` on a string: the number of bytes. -/
def len (s : String) : Int := ((bytes s).length : Int)

/-- The number of code points of a string (`utf8.RuneCountInString`). -/
def runeCount (s : String) : Int := (s.length : Int)

/-- Two's-complement wrap-around of a 64-bit Go `int`. -/
def wrapInt (x : Int) : Int := (x + 2 ^ 63) % 2 ^ 64 - 2 ^ 63

/-- Modelled from the Go standard library (`strings.Join`), which is not part of
the repository: the elements, with `sep` between consecutive ones. -/
def Join (elems : List String) (sep : String) : String :=
  match elems with
  | [] => ""
  | [e] => e
  | e :: rest => rest.foldl (fun b s => b ++ sep ++ s) e

/-! ## The kagome token, as this program sees it -/

/-- A `tokenizer.Token`: the two fields the program reads and the results of the
three methods it calls. `BaseForm` and `Reading` return a string and a flag that
says whether the dictionary entry has the feature. -/
structure Token where
  Surface : String
  Start : Int
  POS : List String
  BaseForm : String × Bool
  Reading : String × Bool
deriving DecidableEq, Repr

/-- A loaded `*tokenizer.Tokenizer`, through its method `Tokenize`. -/
structure Tokenizer where
  Tokenize : String → List Token

/-- The package-level variables: `var t *tokenizer.Tokenizer`. -/
structure Globals where
  t : Tokenizer

/-! ## The program -/

/-- `getPOSType` (main.go, lines 52-57). -/
def getPOSType (pos : List String) : String :=
  match pos with
  | [] => "other"
  | p :: _ => p

/-- The body of the loop of `tokenize` (main.go, lines 34-46): the map literal
built for one token. The flags of `BaseForm()` and `Reading()` are dropped by
the blank identifier. -/
def record (token : Token) : Record :=
  let pos := Join token.POS ","
  let baseForm := token.BaseForm.1
  let reading := token.Reading.1
  [ ("surface", Value.str token.Surface),
    ("pos", Value.str pos),
    ("baseForm", Value.str baseForm),
    ("reading", Value.str reading),
    ("start", Value.int token.Start),
    ("end", Value.int (wrapInt (token.Start + len token.Surface))),
    ("posType", Value.str (getPOSType token.POS)) ]

/-- `tokenize` (main.go, lines 24-50). `valueString` is `js.Value.String`; the
receiver argument is unused by the source and left out. The function returns its
result together with the package-level variables as it leaves them. -/
def tokenize {V : Type} (valueString : V → String) (g : Globals) (args : List V) :
    Any × Globals :=
  match args with
  | [] => (Any.nil, g)
  | a :: _ =>
    let text := valueString a
    let tokens := g.t.Tokenize text
    let ret := tokens.foldl (fun ret token => ret.append (record token)) Slice.nil
    (Any.slice ret, g)

/-! ## Calls in memory

The same function, with the memory it runs in made explicit: the package-level
variable `t` holds the address of a tokenizer object, and the object has a state
of its own that a call of its method may change. -/

/-- The kagome library behind a tokenizer object: `σ` is the state of the object
(its dictionary, its pool of lattices, whatever else it keeps), and a call of
`Tokenize` returns the tokens together with the state it leaves the object in. -/
structure Kagome (σ : Type) where
  Tokenize : σ → String → List Token × σ

/-- The memory of the program once `init` has run: the address stored in the
package-level variable `t`, and the tokenizer objects by address. -/
structure Memory (σ : Type) where
  t : Nat
  heap : Nat → σ

/-- Reading the package-level variable `t`. -/
def Machine.loadT {σ : Type} (m : Memory σ) : Nat × Memory σ := (m.t, m)

/-- The method call `p.Tokenize(text)` on the object at address `p`: the object is
left in the state the library leaves it in, the rest of the memory is untouched. -/
def Machine.callTokenize {σ : Type} (K : Kagome σ) (p : Nat) (text : String)
    (m : Memory σ) : List Token × Memory σ :=
  ((K.Tokenize (m.heap p) text).1,
    { m with heap := Function.update m.heap p (K.Tokenize (m.heap p) text).2 })

/-- `tokenize` (main.go, lines 24-50), statement by statement, on a memory. -/
def Machine.tokenize {σ V : Type} (K : Kagome σ) (valueString : V → String)
    (args : List V) (m : Memory σ) : Any × Memory σ :=
  match args with
  | [] => (Any.nil, m)
  | a :: _ =>
    let text := valueString a
    let (p, m1) := Machine.loadT m
    let (tokens, m2) := Machine.callTokenize K p text m1
    let ret := tokens.foldl (fun ret token => ret.append (record token)) Slice.nil
    (Any.slice ret, m2)

/-- A sequence of calls of `tokenize`, each started in the memory the previous
one left; the results are discarded. -/
def Machine.runCalls {σ V : Type} (K : Kagome σ) (valueString : V → String)
    (m : Memory σ) : List (List V) → Memory σ
  | [] => m
  | args :: rest =>
    Machine.runCalls K valueString (Machine.tokenize K valueString args m).2 rest

/-- The tokenizer that the object `t` points to implements in a given memory. -/
def Machine.loaded {σ : Type} (K : Kagome σ) (m : Memory σ) : Globals :=
  { t := { Tokenize := fun text => (K.Tokenize (m.heap m.t) text).1 } }

/-! ## Tiling of a text by tokens -/

/-- Every token's `Start` is the code-point index at which its surface begins,
when the first surface begins at index `off` and the surfaces follow one
another. -/
def startsFrom (off : Int) : List Token → Bool
  | [] => true
  | tok :: rest => tok.Start == off && startsFrom (off + runeCount tok.Surface) rest

/-- The tokens tile the text: the surfaces concatenate to the text, and each
`Start` is the code-point index of its surface. -/
def Tiles (text : String) (toks : List Token) : Bool :=
  String.join (toks.map Token.Surface) == text && startsFrom 0 toks

/-! ## Concrete inputs -/

/-- The text "東京都" (three code points, nine bytes). -/
def tokyoTo : String := "東京都"

/-- The two tokens kagome reports for "東京都": "東京" at rune 0, "都" at rune 2. -/
def tokyoToTokens : List Token :=
  [ { Surface := "東京", Start := 0, POS := ["名詞", "固有名詞", "地域", "一般"],
      BaseForm := ("東京", true), Reading := ("トウキョウ", true) },
    { Surface := "都", Start := 2, POS := ["名詞", "接尾", "地域", "*"],
      BaseForm := ("都", true), Reading := ("ト", true) } ]

/-- A tokenizer that knows the text "東京都" and returns no token for anything else. -/
def tokyoTokenizer : Tokenizer :=
  { Tokenize := fun s => if s = tokyoTo then tokyoToTokens else [] }

/-- The package-level state after `init` loaded that tokenizer. -/
def tokyoGlobals : Globals := { t := tokyoTokenizer }

/-- A tokenizer object whose state is a dictionary switch and the number of calls
it has served: with the switch on it tokenizes as `tokyoTokenizer` does, with the
switch off it returns no token; every call adds one to the count. -/
def countingKagome : Kagome (Bool × Nat) :=
  { Tokenize := fun s text =>
      (if s.1 then tokyoTokenizer.Tokenize text else [], (s.1, s.2 + 1)) }

/-- A memory in which `t` holds the address 7, every object has its dictionary
switched on and has served no call yet. -/
def countingMemory : Memory (Bool × Nat) := { t := 7, heap := fun _ => (true, 0) }

/-- The word "Go" is not in the IPA dictionary: kagome reports it as an unknown
word, which has neither a base form nor a reading, so that `BaseForm()` and
`Reading()` both return the empty string and `false`. -/
def unknownGo : Token :=
  { Surface := "Go", Start := 0, POS := ["名詞", "一般", "*", "*"],
    BaseForm := ("", false), Reading := ("", false) }

/-- The same token, were its reading present and equal to the empty string. -/
def unknownGoEmptyReading : Token := { unknownGo with Reading := ("", true) }

/-- The same token, were its base form present and equal to the empty string. -/
def unknownGoEmptyBaseForm : Token := { unknownGo with BaseForm := ("", true) }

/-- The particle "は" at rune index 1, as in the text "私は". -/
def particleHa : Token :=
  { Surface := "は", Start := 1, POS := ["助詞", "係助詞", "*", "*"],
    BaseForm := ("は", true), Reading := ("ハ", true) }

/-- The suffix "都" at rune index 2, as in the text "東京都". -/
def suffixTo : Token :=
  { Surface := "都", Start := 2, POS := ["名詞", "接尾", "地域", "*"],
    BaseForm := ("都", true), Reading := ("ト", true) }

/-- The records held by a result: none for the untyped `nil`. -/
def Any.records : Any → List Record
  | Any.nil => []
  | Any.slice s => s.toList

/-- The seven keys of the map literal, in the order of the source. -/
def recordKeys : List String :=
  ["surface", "pos", "baseForm", "reading", "start", "end", "posType"]

/-! ## Lemmas on the loop and on byte lengths -/

theorem foldl_append_toList (toks : List Token) (s : Slice Record) :
    (toks.foldl (fun ret token => ret.append (record token)) s).toList
      = s.toList ++ toks.map record := by
  induction toks generalizing s with
  | nil => simp
  | cons tok rest ih =>
    rw [List.foldl_cons, ih]
    cases s <;> simp [Slice.append, Slice.toList]

theorem tokenize_cons_fst {V : Type} (valueString : V → String) (g : Globals) (a : V)
    (rest : List V) :
    (tokenize valueString g (a :: rest)).1
      = Any.slice ((g.t.Tokenize (valueString a)).foldl
          (fun ret token => ret.append (record token)) Slice.nil) := rfl

theorem tokenize_cons_records {V : Type} (valueString : V → String) (g : Globals) (a : V)
    (rest : List V) :
    (tokenize valueString g (a :: rest)).1.records
      = (g.t.Tokenize (valueString a)).map record := by
  rw [tokenize_cons_fst]
  show Slice.toList _ = _
  rw [foldl_append_toList]
  rfl

theorem tokenize_snd {V : Type} (valueString : V → String) (g : Globals) (args : List V) :
    (tokenize valueString g args).2 = g := by
  cases args <;> rfl

theorem Machine.tokenize_t {σ V : Type} (K : Kagome σ) (valueString : V → String)
    (args : List V) (m : Memory σ) :
    (Machine.tokenize K valueString args m).2.t = m.t := by
  cases args <;> rfl

theorem Machine.tokenize_heap_other {σ V : Type} (K : Kagome σ) (valueString : V → String)
    (args : List V) (m : Memory σ) (p : Nat) (hp : p ≠ m.t) :
    (Machine.tokenize K valueString args m).2.heap p = m.heap p := by
  cases args with
  | nil => rfl
  | cons a rest =>
    show Function.update m.heap m.t _ p = m.heap p
    exact Function.update_noteq hp _ _

theorem Machine.tokenize_dict {σ D V : Type} (K : Kagome σ) (dict : σ → D)
    (valueString : V → String)
    (hkeep : ∀ (s : σ) (text : String), dict (K.Tokenize s text).2 = dict s)
    (args : List V) (m : Memory σ) :
    dict ((Machine.tokenize K valueString args m).2.heap m.t) = dict (m.heap m.t) := by
  cases args with
  | nil => rfl
  | cons a rest =>
    show dict (Function.update m.heap m.t _ m.t) = _
    rw [Function.update_same]
    exact hkeep _ _

theorem Machine.runCalls_t {σ V : Type} (K : Kagome σ) (valueString : V → String)
    (calls : List (List V)) (m : Memory σ) :
    (Machine.runCalls K valueString m calls).t = m.t := by
  induction calls generalizing m with
  | nil => rfl
  | cons args rest ih =>
    rw [Machine.runCalls, ih, Machine.tokenize_t]

theorem Machine.runCalls_heap_other {σ V : Type} (K : Kagome σ) (valueString : V → String)
    (calls : List (List V)) (m : Memory σ) (p : Nat) (hp : p ≠ m.t) :
    (Machine.runCalls K valueString m calls).heap p = m.heap p := by
  induction calls generalizing m with
  | nil => rfl
  | cons args rest ih =>
    rw [Machine.runCalls, ih _ (by rw [Machine.tokenize_t]; exact hp),
      Machine.tokenize_heap_other K valueString args m p hp]

theorem Machine.runCalls_dict {σ D V : Type} (K : Kagome σ) (dict : σ → D)
    (valueString : V → String)
    (hkeep : ∀ (s : σ) (text : String), dict (K.Tokenize s text).2 = dict s)
    (calls : List (List V)) (m : Memory σ) :
    dict ((Machine.runCalls K valueString m calls).heap m.t) = dict (m.heap m.t) := by
  induction calls generalizing m with
  | nil => rfl
  | cons args rest ih =>
    have h := ih (Machine.tokenize K valueString args m).2
    rw [Machine.tokenize_t] at h
    rw [Machine.runCalls, h]
    exact Machine.tokenize_dict K dict valueString hkeep args m

theorem Machine.tokenize_fst_congr {σ D V : Type} (K : Kagome σ) (dict : σ → D)
    (valueString : V → String)
    (hread : ∀ (s s2 : σ) (text : String),
      dict s = dict s2 → (K.Tokenize s text).1 = (K.Tokenize s2 text).1)
    (args : List V) (m m2 : Memory σ) (h : dict (m2.heap m2.t) = dict (m.heap m.t)) :
    (Machine.tokenize K valueString args m2).1 = (Machine.tokenize K valueString args m).1 := by
  cases args with
  | nil => rfl
  | cons a rest =>
    show Any.slice (List.foldl _ Slice.nil (K.Tokenize (m2.heap m2.t) (valueString a)).1)
      = Any.slice (List.foldl _ Slice.nil (K.Tokenize (m.heap m.t) (valueString a)).1)
    rw [hread _ _ _ h]

theorem Machine.tokenize_fst_eq {σ V : Type} (K : Kagome σ) (valueString : V → String)
    (args : List V) (m : Memory σ) :
    (Machine.tokenize K valueString args m).1
      = (MeTime.tokenize valueString (Machine.loaded K m) args).1 := by
  cases args <;> rfl

theorem utf8Size_eq_one_iff (c : Char) : c.utf8Size = 1 ↔ c.toNat < 128 := by
  have h1 : c.val ≤ 127 ↔ c.val.toNat ≤ 127 := UInt32.le_def
  have hc : c.toNat = c.val.toNat := rfl
  rw [hc]
  by_cases h : c.val ≤ 127
  · have h2 := h1.mp h
    have : c.utf8Size = 1 := by
      unfold Char.utf8Size
      exact if_pos h
    omega
  · have h2 : ¬ c.val.toNat ≤ 127 := fun h2 => h (h1.mpr h2)
    have : c.utf8Size ≠ 1 := by
      unfold Char.utf8Size
      show (if c.val ≤ 127 then 1 else _) ≠ 1
      rw [if_neg h]
      split_ifs <;> decide
    constructor
    · intro h3; exact absurd h3 this
    · intro h3; omega

theorem utf8_length (cs : List Char) :
    cs.length ≤ (cs.flatMap String.utf8EncodeChar).length ∧
    ((cs.flatMap String.utf8EncodeChar).length = cs.length ↔ ∀ c ∈ cs, c.toNat < 128) := by
  induction cs with
  | nil => simp
  | cons c cs ih =>
    have hp := c.utf8Size_pos
    have h1 := utf8Size_eq_one_iff c
    simp only [List.flatMap_cons, List.length_append, String.length_utf8EncodeChar,
      List.length_cons, List.forall_mem_cons]
    obtain ⟨ihle, iheq⟩ := ih
    refine ⟨by omega, ?_⟩
    constructor
    · intro h
      have hc : c.utf8Size = 1 := by omega
      exact ⟨h1.mp hc, iheq.mp (by omega)⟩
    · rintro ⟨hc, hcs⟩
      have := h1.mpr hc
      have := iheq.mpr hcs
      omega

theorem runeCount_le_len (s : String) : runeCount s ≤ len s := by
  have h := (utf8_length s.data).1
  simp only [runeCount, len, bytes, String.length]
  exact_mod_cast h

theorem len_eq_runeCount_iff (s : String) :
    len s = runeCount s ↔ ∀ c ∈ s.data, c.toNat < 128 := by
  have h := (utf8_length s.data).2
  simp only [runeCount, len, bytes, String.length]
  rw [← h]
  exact_mod_cast Iff.rfl

theorem wrapInt_of_inRange (x : Int) (h0 : -2 ^ 63 ≤ x) (h1 : x < 2 ^ 63) : wrapInt x = x := by
  unfold wrapInt
  omega

theorem foldl_sep_leads (sep : String) (rest : List String) (e : String) :
    ∃ tail, rest.foldl (fun b s => b ++ sep ++ s) e = e ++ tail := by
  induction rest generalizing e with
  | nil => exact ⟨"", by simp⟩
  | cons s rest ih =>
    obtain ⟨tail, ht⟩ := ih (e ++ sep ++ s)
    refine ⟨sep ++ s ++ tail, ?_⟩
    rw [List.foldl_cons, ht]
    simp [String.append_assoc]

theorem Join_cons_cons (p q : String) (rest : List String) (sep : String) :
    ∃ tail, Join (p :: q :: rest) sep = p ++ sep ++ tail := by
  obtain ⟨tail, ht⟩ := foldl_sep_leads sep rest (p ++ sep ++ q)
  refine ⟨q ++ tail, ?_⟩
  show (q :: rest).foldl (fun b s => b ++ sep ++ s) p = _
  rw [List.foldl_cons, ht]
  simp [String.append_assoc]

/-! ## The claims -/

/-- C4: `getPOSType` returns the first element of a non-empty POS path and
"other" for the empty path; the `posType` field of the i-th record of a call is
the first element of the i-th token's POS path, or "other" when that path is
empty. -/
theorem getPOSType_first_or_other {V : Type} (valueString : V → String) (g : Globals)
    (a : V) (rest : List V) :
    getPOSType [] = "other" ∧
    (∀ (p : String) (ps : List String), getPOSType (p :: ps) = p) ∧
    (∀ pos : List String, getPOSType pos = pos.head?.getD "other") ∧
    (∀ i : Fin (g.t.Tokenize (valueString a)).length,
      ∃ r : Record, (tokenize valueString g (a :: rest)).1.records[i.val]? = some r ∧
        r.get "posType"
          = some (Value.str (((g.t.Tokenize (valueString a)).get i).POS.head?.getD "other"))) := by
  have hpos : ∀ pos : List String, getPOSType pos = pos.head?.getD "other" := by
    intro pos
    cases pos <;> rfl
  refine ⟨rfl, fun _ _ => rfl, hpos, ?_⟩
  intro i
  refine ⟨record ((g.t.Tokenize (valueString a)).get i), ?_, ?_⟩
  · rw [tokenize_cons_records, List.getElem?_map, List.getElem?_eq_getElem i.isLt]
    rfl
  · rw [← hpos]
    rfl

/-- C5: a call with at least one argument returns a slice with one record per
token of the underlying tokenizer, in the same order; the i-th record has exactly
the seven keys surface, pos, baseForm, reading, start, end, posType, its surface
and start are those of the i-th token, and its pos is the token's POS path joined
with ",". -/
theorem tokenize_one_record_per_token {V : Type} (valueString : V → String) (g : Globals)
    (a : V) (rest : List V) :
    ∃ s : Slice Record,
      (tokenize valueString g (a :: rest)).1 = Any.slice s ∧
      s.len = (g.t.Tokenize (valueString a)).length ∧
      ∀ i : Fin (g.t.Tokenize (valueString a)).length,
        ∃ r : Record, s.toList[i.val]? = some r ∧
          r.keys = ["surface", "pos", "baseForm", "reading", "start", "end", "posType"] ∧
          r.get "surface" = some (Value.str ((g.t.Tokenize (valueString a)).get i).Surface) ∧
          r.get "start" = some (Value.int ((g.t.Tokenize (valueString a)).get i).Start) ∧
          r.get "pos" = some (Value.str (Join ((g.t.Tokenize (valueString a)).get i).POS ",")) := by
  refine ⟨_, tokenize_cons_fst valueString g a rest, ?_, ?_⟩
  · show (Slice.toList _).length = _
    rw [foldl_append_toList]
    show (List.map record _).length = _
    rw [List.length_map]
  · intro i
    refine ⟨record ((g.t.Tokenize (valueString a)).get i), ?_, rfl, rfl, rfl, rfl⟩
    rw [foldl_append_toList]
    show (List.map record _)[i.val]? = _
    rw [List.getElem?_map, List.getElem?_eq_getElem i.isLt]
    rfl

/-- C6: with an empty argument list `tokenize` returns the untyped nil, whatever
the tokenizer is, and it returns nil in that case only: for a non-empty argument
list the result is a slice of records, each of which has all seven fields
defined. -/
theorem tokenize_nil_iff_no_args {V : Type} (valueString : V → String) (g : Globals)
    (args : List V) :
    ((tokenize valueString g args).1 = Any.nil ↔ args = []) ∧
    (∀ g2 : Globals, tokenize valueString g2 ([] : List V) = (Any.nil, g2)) ∧
    (∀ (a : V) (rest : List V), ∃ s : Slice Record,
      (tokenize valueString g (a :: rest)).1 = Any.slice s ∧
      s.toList.all (fun r => recordKeys.all (fun k => (r.get k).isSome)) = true) := by
  refine ⟨?_, fun _ => rfl, ?_⟩
  · cases args with
    | nil => exact ⟨fun _ => rfl, fun _ => rfl⟩
    | cons a rest =>
      rw [tokenize_cons_fst]
      exact ⟨fun h => Any.noConfusion h, fun h => List.noConfusion h⟩
  · intro a rest
    refine ⟨_, tokenize_cons_fst valueString g a rest, ?_⟩
    rw [foldl_append_toList]
    show (List.map record _).all _ = true
    rw [List.all_eq_true]
    intro r hr
    obtain ⟨tok, _, rfl⟩ := List.mem_map.mp hr
    rfl

/-- C7: when the underlying tokenizer returns no token for the text, `tokenize`
returns a slice of length 0 (the nil slice), which is not the untyped nil that a
call without arguments returns. -/
theorem tokenize_no_tokens_empty_slice {V : Type} (valueString : V → String) (g : Globals)
    (a : V) (rest : List V) (h : g.t.Tokenize (valueString a) = []) :
    (tokenize valueString g (a :: rest)).1 = Any.slice Slice.nil ∧
    (Slice.nil : Slice Record).len = 0 ∧
    (tokenize valueString g (a :: rest)).1 ≠ (tokenize valueString g []).1 := by
  have h1 : (tokenize valueString g (a :: rest)).1 = Any.slice Slice.nil := by
    rw [tokenize_cons_fst, h]
    rfl
  refine ⟨h1, rfl, ?_⟩
  rw [h1]
  exact fun h2 => Any.noConfusion h2

/-- C7 at the empty string, with a tokenizer that returns no token for it. -/
theorem tokenize_no_tokens_empty_slice_witness :
    tokyoGlobals.t.Tokenize (id "") = [] ∧
    (tokenize id tokyoGlobals [""]).1 = Any.slice Slice.nil ∧
    (Slice.nil : Slice Record).len = 0 ∧
    (tokenize id tokyoGlobals [""]).1 ≠ (tokenize id tokyoGlobals []).1 :=
  ⟨by decide, tokenize_no_tokens_empty_slice id tokyoGlobals "" [] (by decide)⟩

/-- C8: let the loaded tokenizer be fixed, that is, let the tokens it returns
depend only on the text and on a part `dict` of its state that its calls leave as
it is. Then a call of `tokenize` repeated with the same arguments, after the first
call and any sequence of calls in between, returns the result of the first call,
whatever those calls did to the state of the tokenizer object; the variable `t`
still holds the address it held, every other object is as it was, and the result
of a call is the one the function `tokenize` computes from the tokenizer that `t`
points to. -/
theorem tokenize_deterministic {σ D V : Type} (K : Kagome σ) (dict : σ → D)
    (valueString : V → String)
    (hkeep : ∀ (s : σ) (text : String), dict (K.Tokenize s text).2 = dict s)
    (hread : ∀ (s s2 : σ) (text : String),
      dict s = dict s2 → (K.Tokenize s text).1 = (K.Tokenize s2 text).1)
    (m : Memory σ) (args : List V) (between : List (List V)) :
    (Machine.tokenize K valueString args
        (Machine.runCalls K valueString
          (Machine.tokenize K valueString args m).2 between)).1
      = (Machine.tokenize K valueString args m).1 ∧
    (Machine.runCalls K valueString
        (Machine.tokenize K valueString args m).2 between).t = m.t ∧
    (∀ p : Nat, p ≠ m.t →
      (Machine.runCalls K valueString
        (Machine.tokenize K valueString args m).2 between).heap p = m.heap p) ∧
    (Machine.tokenize K valueString args m).1
      = (tokenize valueString (Machine.loaded K m) args).1 := by
  have ht : (Machine.runCalls K valueString
      (Machine.tokenize K valueString args m).2 between).t = m.t := by
    rw [Machine.runCalls_t, Machine.tokenize_t]
  refine ⟨?_, ht, ?_, Machine.tokenize_fst_eq K valueString args m⟩
  · apply Machine.tokenize_fst_congr K dict valueString hread
    rw [ht]
    have h := Machine.runCalls_dict K dict valueString hkeep between
      (Machine.tokenize K valueString args m).2
    rw [Machine.tokenize_t] at h
    rw [h]
    exact Machine.tokenize_dict K dict valueString hkeep args m
  · intro p hp
    rw [Machine.runCalls_heap_other K valueString between _ p
        (by rw [Machine.tokenize_t]; exact hp),
      Machine.tokenize_heap_other K valueString args m p hp]

/-- C8 at the tokenizer object that counts its calls: the first call on "東京都"
and the calls in between, of which two reach the tokenizer, leave the object at
address 7 with a count of three instead of zero, and the repeated call returns
the result of the first. -/
theorem tokenize_deterministic_witness :
    (∀ (s : Bool × Nat) (text : String),
      Prod.fst (countingKagome.Tokenize s text).2 = Prod.fst s) ∧
    (∀ (s s2 : Bool × Nat) (text : String), Prod.fst s = Prod.fst s2 →
      (countingKagome.Tokenize s text).1 = (countingKagome.Tokenize s2 text).1) ∧
    ((Machine.tokenize countingKagome id [tokyoTo]
        (Machine.runCalls countingKagome id
          (Machine.tokenize countingKagome id [tokyoTo] countingMemory).2
          [[""], [tokyoTo, "Go"], []])).1
      = (Machine.tokenize countingKagome id [tokyoTo] countingMemory).1 ∧
    (Machine.runCalls countingKagome id
        (Machine.tokenize countingKagome id [tokyoTo] countingMemory).2
        [[""], [tokyoTo, "Go"], []]).t = countingMemory.t ∧
    (∀ p : Nat, p ≠ countingMemory.t →
      (Machine.runCalls countingKagome id
        (Machine.tokenize countingKagome id [tokyoTo] countingMemory).2
        [[""], [tokyoTo, "Go"], []]).heap p = countingMemory.heap p) ∧
    (Machine.tokenize countingKagome id [tokyoTo] countingMemory).1
      = (tokenize id (Machine.loaded countingKagome countingMemory) [tokyoTo]).1) ∧
    countingMemory.heap 7 = (true, 0) ∧
    (Machine.runCalls countingKagome id
        (Machine.tokenize countingKagome id [tokyoTo] countingMemory).2
        [[""], [tokyoTo, "Go"], []]).heap 7 = (true, 3) :=
  ⟨fun _ _ => rfl,
    fun s s2 text h => by
      show (if s.1 = true then _ else _, _).1 = (if s2.1 = true then _ else _, _).1
      rw [h],
    tokenize_deterministic countingKagome Prod.fst id (fun _ _ => rfl)
      (fun s s2 text h => by
        show (if s.1 = true then _ else _, _).1 = (if s2.1 = true then _ else _, _).1
        rw [h])
      countingMemory [tokyoTo] [[""], [tokyoTo, "Go"], []],
    by decide, by decide⟩

/-- C9: when the addition does not overflow, the `end` field is `Start` plus the
byte length of the surface; it is at least `Start` plus the number of code points,
the two are equal exactly when every character of the surface is ASCII, and it
is strictly greater as soon as one character is not. -/
theorem end_bytes_ge_end_runes (tok : Token) (h0 : 0 ≤ tok.Start)
    (h1 : tok.Start + len tok.Surface < 2 ^ 63) :
    (record tok).get "end" = some (Value.int (tok.Start + len tok.Surface)) ∧
    tok.Start + runeCount tok.Surface ≤ tok.Start + len tok.Surface ∧
    (tok.Start + len tok.Surface = tok.Start + runeCount tok.Surface
      ↔ ∀ c ∈ tok.Surface.data, c.toNat < 128) ∧
    ((∃ c ∈ tok.Surface.data, 128 ≤ c.toNat)
      → tok.Start + runeCount tok.Surface < tok.Start + len tok.Surface) := by
  have hle := runeCount_le_len tok.Surface
  have hiff := len_eq_runeCount_iff tok.Surface
  have hlen : 0 ≤ len tok.Surface := by
    unfold len
    exact Int.natCast_nonneg _
  refine ⟨?_, by omega, ?_, ?_⟩
  · show some (Value.int (wrapInt (tok.Start + len tok.Surface))) = _
    rw [wrapInt_of_inRange _ (by omega) h1]
  · rw [← hiff]
    omega
  · rintro ⟨c, hc, h128⟩
    have hne : len tok.Surface ≠ runeCount tok.Surface := by
      intro heq
      have := hiff.mp heq c hc
      omega
    omega

/-- C9 at the token "は" (one code point, three bytes) starting at rune 1. -/
theorem end_bytes_ge_end_runes_witness :
    (0 : Int) ≤ particleHa.Start ∧
    particleHa.Start + len particleHa.Surface < 2 ^ 63 ∧
    (record particleHa).get "end"
      = some (Value.int (particleHa.Start + len particleHa.Surface)) ∧
    particleHa.Start + runeCount particleHa.Surface
      ≤ particleHa.Start + len particleHa.Surface ∧
    (particleHa.Start + len particleHa.Surface
        = particleHa.Start + runeCount particleHa.Surface
      ↔ ∀ c ∈ particleHa.Surface.data, c.toNat < 128) ∧
    ((∃ c ∈ particleHa.Surface.data, 128 ≤ c.toNat)
      → particleHa.Start + runeCount particleHa.Surface
          < particleHa.Start + len particleHa.Surface) :=
  ⟨by decide, by decide, end_bytes_ge_end_runes particleHa (by decide) (by decide)⟩

/-- C10: the record's pos and posType are strings; for an empty POS path pos is
the empty string and posType is "other", for a one-element path both equal the
element, and for a longer path posType is the first element and pos begins with
posType followed by ",". -/
theorem posType_leads_pos (tok : Token) :
    ∃ pos posType : String,
      (record tok).get "pos" = some (Value.str pos) ∧
      (record tok).get "posType" = some (Value.str posType) ∧
      match tok.POS with
      | [] => pos = "" ∧ posType = "other"
      | [p] => pos = p ∧ posType = p
      | p :: _ :: _ => posType = p ∧ ∃ tail : String, pos = posType ++ "," ++ tail := by
  refine ⟨Join tok.POS ",", getPOSType tok.POS, rfl, rfl, ?_⟩
  match tok.POS with
  | [] => exact ⟨rfl, rfl⟩
  | [p] => exact ⟨rfl, rfl⟩
  | p :: q :: rest => exact ⟨rfl, Join_cons_cons p q rest ","⟩

/-- C2, as the code has it: the baseForm and reading fields are the strings that
`BaseForm()` and `Reading()` return, and the record does not depend on the
presence flags returned with them. -/
theorem record_drops_presence_flags (tok : Token) (hasBase hasReading : Bool) :
    (record tok).get "baseForm" = some (Value.str tok.BaseForm.1) ∧
    (record tok).get "reading" = some (Value.str tok.Reading.1) ∧
    record { tok with BaseForm := (tok.BaseForm.1, hasBase),
                      Reading := (tok.Reading.1, hasReading) } = record tok :=
  ⟨rfl, rfl, rfl⟩

/-- C2 fails on the unknown word "Go": the token, which has no reading and no base
form, and the token that differs from it only in having the empty string as its
reading (as its base form) are turned into the same record. -/
theorem absent_reading_same_record :
    unknownGo.Reading = ("", false) ∧
    unknownGo.BaseForm = ("", false) ∧
    unknownGoEmptyReading = { unknownGo with Reading := ("", true) } ∧
    unknownGoEmptyBaseForm = { unknownGo with BaseForm := ("", true) } ∧
    unknownGo ≠ unknownGoEmptyReading ∧
    unknownGo ≠ unknownGoEmptyBaseForm ∧
    ¬ (record unknownGo ≠ record unknownGoEmptyReading) ∧
    ¬ (record unknownGo ≠ record unknownGoEmptyBaseForm) := by
  decide

/-- C1 on the text "東京都": the tokens tile the text, the records have the spans
(0, 6) and (2, 5), and the text has 3 code points and 9 bytes; the second start
is not the first end, and the last end is not the length of the text. -/
theorem tokenize_tokyoTo_spans :
    Tiles tokyoTo tokyoToTokens = true ∧
    tokyoGlobals.t.Tokenize (id tokyoTo) = tokyoToTokens ∧
    (tokenize id tokyoGlobals [tokyoTo]).1.records.map
        (fun r => (r.get "start", r.get "end"))
      = [(some (Value.int 0), some (Value.int 6)), (some (Value.int 2), some (Value.int 5))] ∧
    runeCount tokyoTo = 3 ∧ len tokyoTo = 9 := by
  decide

/-- C3 on the token "都" at rune index 2: the record has start 2 and end 5, while
the surface is one code point long, so that start plus the length of the surface
in the unit of start is 3. -/
theorem record_suffixTo_end :
    (record suffixTo).get "start" = some (Value.int 2) ∧
    (record suffixTo).get "end" = some (Value.int 5) ∧
    runeCount suffixTo.Surface = 1 ∧
    suffixTo.Start + runeCount suffixTo.Surface = 3 ∧
    len suffixTo.Surface = 3 := by
  decide

end MeTime
